import Mathlib

/-!
# SimpleEngineWithOpenGL-003: actor registry, frame update and circle outline

A shallow embedding of `Game.cpp` (the actor registry, `Game::initialize`,
`Game::update`, `Game::loop`, `Game::unload`) and of `DrawCircleComponent.cpp`
(constructor, destructor and midpoint circle loop).

* An `Actor*` is modelled by a natural number (pointer identity).
* A `std::vector<Actor*>` is modelled by a `List Nat`; `emplace_back` appends
  at the end, `pop_back` is `List.dropLast`.
* `World` pairs the fields of `Game` with the part of the heap the frame
  update reads (the `state` field of every `Actor`) and with two logs that
  record, oldest first, the calls of `Actor::update` and the `delete`
  expressions that were executed.
* The argument `dt` of `Game::update` is only handed on to `Actor::update`; it
  is a rational number here.
* The `int32_t` loop variables of `drawCircle` are integers kept in the 32-bit
  range: every arithmetic result stored in one of them goes through `wrap32`.
-/

namespace SimpleEngine

/-! ## Data model -/

/-- The enum `Actor::ActorState` of `Actor.h`. -/
inductive ActorState where
  | Active
  | Paused
  | Dead
deriving DecidableEq, Repr

/-- The data members of `class Game` (`Game.h`) that the registry and the
frame update use: the two flags and the two vectors of actor pointers. -/
structure Game where
  isRunning : Bool
  isUpdatingActors : Bool
  actors : List Nat
  pendingActors : List Nat
deriving DecidableEq, Repr

/-! ## `std::vector` helpers used by `Game::removeActor` -/

/-- The call `std::find(begin(v), end(v), actor)` as an index: the position of
the first entry equal to `actor`, or `v.length` (the end iterator) when there is
none. -/
def find (v : List Nat) (actor : Nat) : Nat :=
  v.indexOf actor

/-- The call `std::iter_swap(v.begin() + i, v.begin() + j)`: exchanges the
entries at the two positions. -/
def iterSwap (v : List Nat) (i j : Nat) : List Nat :=
  match v[i]?, v[j]? with
  | some x, some y => (v.set i y).set j x
  | _, _ => v

/-- The call `v.pop_back()`. -/
def popBack (v : List Nat) : List Nat :=
  v.dropLast

/-- One of the two identical blocks of `Game::removeActor` (lines 130-135 for
`pendingActors`, lines 136-141 for `actors`): find the first occurrence, and
when there is one swap it with the last entry and pop the last entry. -/
def swapAndPop (v : List Nat) (actor : Nat) : List Nat :=
  let iter := find v actor
  if iter ≠ v.length then
    popBack (iterSwap v iter (v.length - 1))
  else
    v

/-! ## The actor registry of `Game` -/

/-- The method `Game::addActor` (lines 116-126). -/
def Game.addActor (g : Game) (actor : Nat) : Game :=
  if g.isUpdatingActors then
    { g with pendingActors := g.pendingActors ++ [actor] }
  else
    { g with actors := g.actors ++ [actor] }

/-- The method `Game::removeActor` (lines 128-142). -/
def Game.removeActor (g : Game) (actor : Nat) : Game :=
  let g1 := { g with pendingActors := swapAndPop g.pendingActors actor }
  { g1 with actors := swapAndPop g1.actors actor }

/-! ## The world seen by `Game::update` -/

/-- The game together with the heap data the frame update reads and with the
two logs: `state` is the `state` field of every actor object, `updated` lists
the calls `actor->update(dt)` made so far (actor and argument, oldest first),
`destroyed` lists the `delete` expressions executed so far (oldest first). -/
structure World where
  game : Game
  state : Nat → ActorState
  updated : List (Nat × Rat)
  destroyed : List Nat

/-- What the body of an actor's update (its `updateActor` override and the
updates of its components) may do to the world while the actor pass of
`Game::update` runs: call `Game::addActor`, call `Game::removeActor`, or change
the lifecycle state of an actor. -/
inductive Op where
  | addActor (actor : Nat)
  | removeActor (actor : Nat)
  | setState (actor : Nat) (s : ActorState)
deriving DecidableEq, Repr

/-- The behaviour of the actors, a parameter of the model: the operations the
update body of `actor` issues, in order, when run with `dt` in world `w`. -/
abbrev Behaviour := Nat → Rat → World → List Op

/-- Effect of one operation issued by an update body.  A call of
`Game::removeActor` on an actor that is in `actors` pops an entry of the vector
the range-for of lines 51-54 is iterating over and invalidates its end
iterator, after which C++ leaves the loop undefined; the model covers the calls
that are defined, those on an actor that is not in `actors`, and leaves the
world as it is for the others. -/
def World.runOp (w : World) : Op → World
  | Op.addActor a => { w with game := w.game.addActor a }
  | Op.removeActor a =>
    if a ∈ w.game.actors then w else { w with game := w.game.removeActor a }
  | Op.setState a s => { w with state := Function.update w.state a s }

/-- Modelled from the spec: `Actor::update` (declared in `Actor.h`, defined in
`Actor.cpp`, which is not among the sources).  Section 4.1: a no-op if the
state is not `Active`; otherwise the virtual extension point and the owned
components run, here the operations of `beh`.  The call itself is logged. -/
def Actor.update (beh : Behaviour) (w : World) (actor : Nat) (dt : Rat) : World :=
  let w1 := { w with updated := w.updated ++ [(actor, dt)] }
  if w1.state actor = ActorState.Active then
    (beh actor dt w1).foldl World.runOp w1
  else
    w1

/-- Modelled from the spec: the expression `delete actor`, that is `Actor::~Actor`
(declared in `Actor.h`, defined in `Actor.cpp`, which is not among the sources).
Section 4.3 step 6 requires the erase from the live collection to happen as part
of destroying the actor, and the loop of `Game::unload`,
`while (!actors.empty()) delete actors.back();`, relies on it: the destructor
calls `game.removeActor(this)`.  The `delete` itself is logged. -/
def Actor.delete (w : World) (actor : Nat) : World :=
  { w with game := w.game.removeActor actor, destroyed := w.destroyed ++ [actor] }

/-! ## `Game::update` -/

/-- The range-for of lines 51-54, `for (auto actor : actors) actor->update(dt);`.
The end iterator is computed once, before the first iteration: `n` is the number
of iterations still to run and `i` the position of the iterator.  Each iteration
reads the entry at position `i` of the vector as it is at that moment. -/
def actorLoop (beh : Behaviour) (dt : Rat) : Nat → Nat → World → World
  | 0, _, w => w
  | n + 1, i, w =>
    match w.game.actors[i]? with
    | some actor => actorLoop beh dt n (i + 1) (Actor.update beh w actor dt)
    | none => w

/-- The actor pass of `Game::update` (lines 50-55): raise the flag, run the
loop over the live collection, lower the flag. -/
def actorPass (beh : Behaviour) (dt : Rat) (w : World) : World :=
  let w0 := { w with game := { w.game with isUpdatingActors := true } }
  let w1 := actorLoop beh dt w0.game.actors.length 0 w0
  { w1 with game := { w1.game with isUpdatingActors := false } }

/-- The flush step of `Game::update` (lines 57-61): every pending actor is
appended to `actors` with `emplace_back`, then `pendingActors` is cleared. -/
def Game.flush (g : Game) : Game :=
  { g with
    actors := g.pendingActors.foldl (fun acc pendingActor => acc ++ [pendingActor]) g.actors
    pendingActors := [] }

/-- The reap scan of `Game::update` (lines 63-70): the local vector `deadActors`,
filled in collection order with the live actors whose state is `Dead`. -/
def deadActors (w : World) : List Nat :=
  w.game.actors.foldl
    (fun acc actor => if w.state actor = ActorState.Dead then acc ++ [actor] else acc) []

/-- The destroy step of `Game::update` (lines 71-74): `delete` is applied to
every entry of `deadActors`, in order. -/
def reap (w : World) : World :=
  (deadActors w).foldl Actor.delete w

/-- The world at the reap scan of `Game::update`: after the actor pass and the
flush (lines 50-61). -/
def beforeReap (beh : Behaviour) (dt : Rat) (w : World) : World :=
  let w1 := actorPass beh dt w
  { w1 with game := w1.game.flush }

/-- The method `Game::update` (lines 48-75). -/
def Game.update (beh : Behaviour) (dt : Rat) (w : World) : World :=
  reap (beforeReap beh dt w)

/-! ## Predicates used to state the properties of the actor pass -/

/-- The operations the update body of `actor` issues when `Actor::update` is
called on it in world `w`: none unless the actor is `Active`. -/
def bodyOps (beh : Behaviour) (w : World) (actor : Nat) (dt : Rat) : List Op :=
  if w.state actor = ActorState.Active then
    beh actor dt { w with updated := w.updated ++ [(actor, dt)] }
  else
    []

/-- The operations the update bodies issue during the loop of the actor pass,
in the order in which they are issued; the arguments are those of
`actorLoop`. -/
def loopOps (beh : Behaviour) (dt : Rat) : Nat → Nat → World → List Op
  | 0, _, _ => []
  | n + 1, i, w =>
    match w.game.actors[i]? with
    | some actor =>
      bodyOps beh w actor dt ++ loopOps beh dt n (i + 1) (Actor.update beh w actor dt)
    | none => []

/-- The operations the update bodies issue during the actor pass of a call of
`Game::update` made in world `w`, in order. -/
def passOps (beh : Behaviour) (dt : Rat) (w : World) : List Op :=
  loopOps beh dt w.game.actors.length 0
    { w with game := { w.game with isUpdatingActors := true } }

/-- The relation between the world `w` before and the world `w1` after a piece
of the actor pass run while the flag is raised: the flags and the live
collection are untouched, the call log has grown by `calls`, nothing was
destroyed. -/
structure PassInv (w w1 : World) (calls : List (Nat × Rat)) : Prop where
  flag : w1.game.isUpdatingActors = true
  running : w1.game.isRunning = w.game.isRunning
  actors : w1.game.actors = w.game.actors
  updated : w1.updated = w.updated ++ calls
  destroyed : w1.destroyed = w.destroyed

/-- The `delete` expressions logged between the world `w` and the later world
`w1`. -/
def deletesDuring (w w1 : World) : List Nat :=
  w1.destroyed.drop w.destroyed.length

/-! ## `DrawCircleComponent::drawCircle` -/

/-- The value a 32-bit signed variable (`int`, `int32_t`) takes when the exact
result of an operation is `n`: the two's complement representative of `n`. -/
def wrap32 (n : Int) : Int :=
  (n + 2147483648) % 4294967296 - 2147483648

/-- The loop variables of `drawCircle` (lines 29-33). -/
structure CircleVars where
  x : Int
  y : Int
  tx : Int
  ty : Int
  error : Int
deriving DecidableEq, Repr

/-- The values of the loop variables before the first iteration (lines 27-33). -/
def circleInit (radius : Int) : CircleVars :=
  let diameter := wrap32 (radius * 2)
  { x := wrap32 (radius - 1), y := 0, tx := 1, ty := 1, error := wrap32 (1 - diameter) }

/-- The eight calls of `SDL_RenderDrawPoint` of one iteration (lines 38-45), in
program order, as the list of the plotted coordinates. -/
def plotIteration (centreX centreY : Int) (s : CircleVars) : List (Int × Int) :=
  [ (centreX + s.x, centreY - s.y),
    (centreX + s.x, centreY + s.y),
    (centreX - s.x, centreY - s.y),
    (centreX - s.x, centreY + s.y),
    (centreY + s.y, centreY - s.x),
    (centreX + s.y, centreY + s.x),
    (centreX - s.y, centreY - s.x),
    (centreX - s.y, centreY + s.x) ]

/-- The two conditional updates that end one iteration (lines 47-57). -/
def circleAdvance (diameter : Int) (s : CircleVars) : CircleVars :=
  let s1 :=
    if s.error ≤ 0 then
      { s with y := wrap32 (s.y + 1), error := wrap32 (s.error + s.ty), ty := wrap32 (s.ty + 2) }
    else s
  if s1.error > 0 then
    { s1 with
      x := wrap32 (s1.x - 1)
      tx := wrap32 (s1.tx + 2)
      error := wrap32 (s1.error + wrap32 (wrap32 (s1.tx + 2) - diameter)) }
  else s1

/-- The `while (x >= y)` loop of `drawCircle` (lines 37-58) run for at most
`fuel` iterations: the plotted points in program order, or `none` when the loop
has not stopped within `fuel` iterations. -/
def circleLoop (centreX centreY diameter : Int) : Nat → CircleVars → Option (List (Int × Int))
  | 0, s => if s.x ≥ s.y then none else some []
  | fuel + 1, s =>
    if s.x ≥ s.y then
      (circleLoop centreX centreY diameter fuel (circleAdvance diameter s)).map
        (fun rest => plotIteration centreX centreY s ++ rest)
    else some []

/-- The method `DrawCircleComponent::drawCircle` (lines 21-59) for an owner at
`(centreX, centreY)`: all points given to `SDL_RenderDrawPoint`, in order, when
the loop stops within `max(radius, 0)` iterations, and `none` when it is still
running after that many. -/
def drawCircle (centreX centreY radius : Int) : Option (List (Int × Int)) :=
  circleLoop centreX centreY (wrap32 (radius * 2)) radius.toNat (circleInit radius)

/-! ## Concrete worlds and behaviours used as examples -/

/-- All actors are `Active`. -/
def allActive : Nat → ActorState :=
  fun _ => ActorState.Active

/-- No update body does anything. -/
def idle : Behaviour :=
  fun _ _ _ => []

/-- Actor 1 is `Dead`, every other actor is `Active`. -/
def oneDead : Nat → ActorState :=
  fun actor => if actor = 1 then ActorState.Dead else ActorState.Active

/-- A world in the middle of an actor pass (the flag is raised) with no actor
registered at all, in which actor 1 is `Dead`. -/
def midPassWorld : World :=
  { game := { isRunning := true, isUpdatingActors := true, actors := [], pendingActors := [] }
    state := oneDead
    updated := []
    destroyed := [] }

/-- A world in the middle of an actor pass with actor 1 live and actor 2
pending, all actors `Active`. -/
def busyWorld : World :=
  { game := { isRunning := true, isUpdatingActors := true, actors := [1], pendingActors := [2] }
    state := allActive
    updated := []
    destroyed := [] }

/-- A world between two frames whose live collection lists the `Dead` actor 1
twice, followed by the `Active` actor 2. -/
def twiceDeadWorld : World :=
  { game := { isRunning := true, isUpdatingActors := false, actors := [1, 1, 2],
              pendingActors := [] }
    state := oneDead
    updated := []
    destroyed := [] }

/-- A world between two frames with the live actors 1 (`Dead`), 2 and 3. -/
def reapWorld : World :=
  { game := { isRunning := true, isUpdatingActors := false, actors := [1, 2, 3],
              pendingActors := [] }
    state := oneDead
    updated := []
    destroyed := [] }

/-- The update body of actor 1 registers actor 3; the other bodies do nothing. -/
def addThree : Behaviour :=
  fun actor _ _ => if actor = 1 then [Op.addActor 3] else []

/-- The update body of actor 1 calls `removeActor(3)`; the other bodies do
nothing. -/
def dropThree : Behaviour :=
  fun actor _ _ => if actor = 1 then [Op.removeActor 3] else []

/-- A game whose live collection lists actor 1 twice. -/
def doubledGame : Game :=
  { isRunning := true, isUpdatingActors := false, actors := [1, 1], pendingActors := [] }

/-- A game with four live and three pending actors; actor 2 is in both
collections. -/
def sampleGame : Game :=
  { isRunning := true, isUpdatingActors := false, actors := [1, 2, 3, 4],
    pendingActors := [5, 2, 6] }

/-! ## The two collections of the registry -/

/-- The names of the two collections of `Game`. -/
inductive Collection where
  | pending
  | live
deriving DecidableEq, Repr

/-- The collection of `g` with the given name. -/
def Game.collection (g : Game) : Collection → List Nat
  | Collection.pending => g.pendingActors
  | Collection.live => g.actors

/-! ## The point set required of one iteration of the circle loop -/

/-- The 8-way symmetric point set about the centre `(cx, cy)` for the step
`(x, y)`, as the specification lists it. -/
def symmetricPoints (cx cy x y : Int) : List (Int × Int) :=
  [ (cx + x, cy - y), (cx + x, cy + y), (cx - x, cy - y), (cx - x, cy + y),
    (cx + y, cy - x), (cx + y, cy + x), (cx - y, cy - x), (cx - y, cy + x) ]

/-! ## The states of the circle loop and the reflections about the centre -/

/-- The loop variables of `drawCircle` for the given radius after `i` executions
of the loop body (lines 47-57), whether or not the loop is still running. -/
def circleState (radius : Int) (i : Nat) : CircleVars :=
  (circleAdvance (wrap32 (radius * 2)))^[i] (circleInit radius)

/-- What holds of the loop variables of `drawCircle` for radius `r` at the start
of every iteration and at loop exit, as long as no 32-bit operation has
overflowed: the ranges of `x` and `y`, the decision variables, and the bounds on
the error term. -/
structure CircleInv (r : Int) (s : CircleVars) : Prop where
  ynonneg : 0 ≤ s.y
  yle : s.y ≤ r
  xge : -1 ≤ s.x
  xle : s.x ≤ r - 1
  ty : s.ty = 2 * s.y + 1
  tx : s.tx = 2 * (r - 1 - s.x) + 1
  error : s.error = s.x ^ 2 + s.y ^ 2 - r ^ 2
  errorle : s.y ≤ s.x → s.error ≤ 0
  errorge : -2 * s.x - 1 ≤ s.error

/-- The images of the point `p` under the 8 reflections about the centre
`(cx, cy)`: the offsets of `p` from the centre with either sign, in either
order. -/
def reflections (cx cy : Int) (p : Int × Int) : List (Int × Int) :=
  [ (cx + (p.1 - cx), cy + (p.2 - cy)), (cx - (p.1 - cx), cy + (p.2 - cy)),
    (cx + (p.1 - cx), cy - (p.2 - cy)), (cx - (p.1 - cx), cy - (p.2 - cy)),
    (cx + (p.2 - cy), cy + (p.1 - cx)), (cx - (p.2 - cy), cy + (p.1 - cx)),
    (cx + (p.2 - cy), cy - (p.1 - cx)), (cx - (p.2 - cy), cy - (p.1 - cx)) ]

/-! ## `Game::initialize` -/

/-- The calls that `Game::initialize` and `Game::close` make on the platform
window and renderer. -/
inductive PlatformCall where
  | windowInitialize
  | rendererInitialize
  | rendererClose
  | windowClose
deriving DecidableEq, Repr

/-- The method `Game::initialize` (lines 12-18).  `Window::initialize` and
`Renderer::initialize` are external; their outcomes are the two parameters.  The
result is the returned flag together with the calls made, in order. -/
def Game.initialize (windowInit rendererInit : Bool) : Bool × List PlatformCall :=
  let isWindowInit := windowInit
  let isRendererInit := rendererInit
  (isWindowInit && isRendererInit,
    [PlatformCall.windowInitialize, PlatformCall.rendererInitialize])

/-! ## `Game::processInput` and `Game::loop` -/

/-- Modelled from the spec: `Assets::clear` (declared in `Assets.h`, its
definition is not among the sources).  Section 6: releases all cached
resources.  The cache `Assets::textures` is a list of names with their texture
handles. -/
def Assets.clear (_textures : List (String × Nat)) : List (String × Nat) :=
  []

/-- The loop `while (!actors.empty()) delete actors.back();` of `Game::unload`
(lines 101-104) run for at most `fuel` iterations, `none` when it has not
stopped by then. -/
def unloadLoop : Nat → World → Option World
  | 0, w => if w.game.actors.isEmpty then some w else none
  | fuel + 1, w =>
    match w.game.actors.getLast? with
    | none => some w
    | some actor => unloadLoop fuel (Actor.delete w actor)

/-- The method `Game::unload` (lines 99-107): the world and the texture cache
it leaves.  Every `delete` pops one entry of `actors`, so as many iterations as
`actors` has entries are allowed for. -/
def Game.unload (w : World) (textures : List (String × Nat)) :
    Option (World × List (String × Nat)) :=
  (unloadLoop w.game.actors.length w).map (fun w1 => (w1, Assets.clear textures))

/-! ## `DrawCircleComponent` and the drawable set of the renderer -/

/-- The calls a `DrawCircleComponent` makes on the renderer. -/
inductive RendererCall where
  | addCircle (component : Nat)
  | removeCircle (component : Nat)
deriving DecidableEq, Repr

/-- The constructor `DrawCircleComponent::DrawCircleComponent`
(`DrawCircleComponent.cpp` lines 7-11) for the new component `this`: the calls
its body makes on the renderer. -/
def DrawCircleComponent.construct (this : Nat) : List RendererCall :=
  [RendererCall.addCircle this]

/-- The destructor `DrawCircleComponent::~DrawCircleComponent`
(`DrawCircleComponent.cpp` lines 13-15) for the component `this`: the calls its
body makes on the renderer. -/
def DrawCircleComponent.destroy (this : Nat) : List RendererCall :=
  [RendererCall.removeCircle this]

/-- Modelled from the spec: `Renderer::addCircle` and `Renderer::removeCircle`
(the renderer is not among the sources).  Sections 6 and 8: the renderer keeps
the registered drawables in registration order; registering adds one entry,
unregistering removes that one entry (and nothing when there is none). -/
def Renderer.run (circles : List Nat) : RendererCall → List Nat
  | RendererCall.addCircle c => circles ++ [c]
  | RendererCall.removeCircle c => circles.erase c

/-- A step in the life of the circle components. -/
inductive CircleEvent where
  | construct (component : Nat)
  | destroy (component : Nat)
deriving DecidableEq, Repr

/-- The drawable set after the given constructions and destructions. -/
def runCircleEvents (circles : List Nat) : List CircleEvent → List Nat
  | [] => circles
  | CircleEvent.construct c :: rest =>
    runCircleEvents ((DrawCircleComponent.construct c).foldl Renderer.run circles) rest
  | CircleEvent.destroy c :: rest =>
    runCircleEvents ((DrawCircleComponent.destroy c).foldl Renderer.run circles) rest

/-- The events form matched construct/destroy pairs: with `alive` the
components constructed and not yet destroyed, every destruction is that of a
component that is alive, and none is alive at the end. -/
def matchedPairs (alive : List Nat) : List CircleEvent → Bool
  | [] => alive.isEmpty
  | CircleEvent.construct c :: rest => matchedPairs (c :: alive) rest
  | CircleEvent.destroy c :: rest => alive.contains c && matchedPairs (alive.erase c) rest

/-- The number of constructions among the events. -/
def constructions : List CircleEvent → Nat
  | [] => 0
  | CircleEvent.construct _ :: rest => constructions rest + 1
  | CircleEvent.destroy _ :: rest => constructions rest

/-- A world between two frames whose live collection lists actor 1 twice. -/
def doubledWorld : World :=
  { game := doubledGame, state := allActive, updated := [], destroyed := [] }

/-- Three circle components with interleaved lifetimes. -/
def sampleCircleEvents : List CircleEvent :=
  [CircleEvent.construct 1, CircleEvent.construct 2, CircleEvent.destroy 1,
   CircleEvent.construct 3, CircleEvent.destroy 3, CircleEvent.destroy 2]

/-! ## Lemmas on the vector helpers -/

theorem find_lt_length_iff (v : List Nat) (a : Nat) : find v a < v.length ↔ a ∈ v := by
  unfold find
  exact List.indexOf_lt_length

theorem find_eq_of_first (v : List Nat) (a i : Nat) (hi : i < v.length)
    (hat : v.get ⟨i, hi⟩ = a) (hfirst : ∀ j (hj : j < i), v.get ⟨j, Nat.lt_trans hj hi⟩ ≠ a) :
    find v a = i := by
  unfold find
  induction v generalizing i with
  | nil => simp at hi
  | cons b t ih =>
    cases i with
    | zero =>
      simp at hat
      simp [hat]
    | succ k =>
      have hb : b ≠ a := by
        have := hfirst 0 (Nat.succ_pos k)
        simpa using this
      rw [List.indexOf_cons_ne _ hb]
      have hk : k < t.length := by simpa using hi
      have := ih k hk (by simpa using hat) (fun j hj => by
        have := hfirst (j + 1) (Nat.succ_lt_succ hj)
        simpa using this)
      omega

theorem swapAndPop_of_not_mem (v : List Nat) (a : Nat) (h : a ∉ v) : swapAndPop v a = v := by
  have : find v a = v.length := by
    unfold find
    exact List.indexOf_eq_length.2 h
  simp [swapAndPop, this]

theorem swapAndPop_of_mem (v : List Nat) (a : Nat) (h : a ∈ v) :
    swapAndPop v a = ((v.set (find v a) (v.getLast (List.ne_nil_of_mem h))).set (v.length - 1) a).dropLast := by
  have hlt : find v a < v.length := (find_lt_length_iff v a).2 h
  have hne : find v a ≠ v.length := Nat.ne_of_lt hlt
  have hi : v[find v a]? = some a := by
    unfold find
    exact List.getElem?_indexOf h
  have hl : v[v.length - 1]? = some (v.getLast (List.ne_nil_of_mem h)) := by
    rw [← List.getLast?_eq_getElem?, List.getLast?_eq_getLast]
  simp [swapAndPop, hne, iterSwap, hi, hl, popBack]

theorem dropLast_set_last (v : List Nat) (a : Nat) :
    (v.set (v.length - 1) a).dropLast = v.dropLast := by
  apply List.ext_getElem?
  intro k
  simp only [List.dropLast_eq_take, List.length_set, List.getElem?_take, List.getElem?_set]
  by_cases hk : k < v.length - 1
  · have : v.length - 1 ≠ k := by omega
    simp [hk, this]
  · simp [hk]

theorem swapAndPop_eq_set_dropLast (v : List Nat) (a : Nat) (h : a ∈ v) :
    swapAndPop v a = (v.set (find v a) (v.getLast (List.ne_nil_of_mem h))).dropLast := by
  rw [swapAndPop_of_mem v a h]
  have := dropLast_set_last (v.set (find v a) (v.getLast (List.ne_nil_of_mem h))) a
  simpa using this

theorem length_swapAndPop_of_mem (v : List Nat) (a : Nat) (h : a ∈ v) :
    (swapAndPop v a).length = v.length - 1 := by
  rw [swapAndPop_eq_set_dropLast v a h]
  simp

theorem iterSwap_perm (v : List Nat) (i j : Nat) : (iterSwap v i j).Perm v := by
  unfold iterSwap
  split
  · rename_i x y hx hy
    rw [List.perm_iff_count]
    intro b
    obtain ⟨hi, hxi⟩ := List.getElem?_eq_some.1 hx
    obtain ⟨hj, hyj⟩ := List.getElem?_eq_some.1 hy
    have hj2 : j < (v.set i y).length := by simpa using hj
    rw [List.count_set _ _ _ _ hj2, List.count_set _ _ _ _ hi]
    have hget : (v.set i y)[j] = y := by
      rw [List.getElem_set]
      split
      · rfl
      · exact hyj
    rw [hget, hxi]
    have hxmem : x ∈ v := hxi ▸ List.getElem_mem hi
    by_cases hxb : x = b
    · have : 0 < v.count b := by
        rw [List.count_pos_iff]
        exact hxb ▸ hxmem
      by_cases hyb : y = b <;> simp [hxb, hyb] <;> omega
    · by_cases hyb : y = b <;> simp [hxb, hyb]
  · exact List.Perm.refl v

theorem swapAndPop_concat_perm (v : List Nat) (a : Nat) (h : a ∈ v) :
    (swapAndPop v a ++ [a]).Perm v := by
  rw [swapAndPop_of_mem v a h]
  have hne : v ≠ [] := List.ne_nil_of_mem h
  have hpos : 0 < v.length := List.length_pos.2 hne
  have hlt : find v a < v.length := (find_lt_length_iff v a).2 h
  have hi : v[find v a]? = some a := by
    unfold find
    exact List.getElem?_indexOf h
  have hl : v[v.length - 1]? = some (v.getLast hne) := by
    rw [← List.getLast?_eq_getElem?, List.getLast?_eq_getLast]
  have hsw : iterSwap v (find v a) (v.length - 1)
      = (v.set (find v a) (v.getLast hne)).set (v.length - 1) a := by
    simp [iterSwap, hi, hl]
  have hne2 : (v.set (find v a) (v.getLast hne)).set (v.length - 1) a ≠ [] := by
    intro hnil
    have hlen := congrArg List.length hnil
    simp only [List.length_set, List.length_nil] at hlen
    omega
  have hlast : ((v.set (find v a) (v.getLast hne)).set (v.length - 1) a).getLast hne2 = a := by
    rw [List.getLast_eq_getElem]
    simp [List.getElem_set]
  have hcat := List.dropLast_concat_getLast hne2
  rw [hlast] at hcat
  rw [hcat, ← hsw]
  exact iterSwap_perm v _ _

theorem count_swapAndPop (v : List Nat) (a b : Nat) :
    (swapAndPop v a).count b = v.count b - (if a = b then 1 else 0) := by
  by_cases h : a ∈ v
  · have hp := (swapAndPop_concat_perm v a h).count_eq b
    rw [List.count_append] at hp
    by_cases hab : a = b
    · subst hab
      simp at hp
      simp
      omega
    · have hba : ¬ b = a := fun e => hab e.symm
      have h0 : List.count b [a] = 0 := by
        rw [List.count_eq_zero]
        simpa using hba
      rw [h0] at hp
      simp only [hab, if_false]
      omega
  · rw [swapAndPop_of_not_mem v a h]
    by_cases hab : a = b
    · subst hab
      rw [List.count_eq_zero_of_not_mem h]
      simp
    · simp [hab]

theorem count_foldl_swapAndPop (ds v : List Nat) (b : Nat) :
    (ds.foldl swapAndPop v).count b = v.count b - ds.count b := by
  induction ds generalizing v with
  | nil => simp
  | cons d t ih =>
    rw [List.foldl_cons, ih, count_swapAndPop, List.count_cons]
    by_cases hdb : d = b
    · simp [hdb]
      omega
    · have hbd : ¬ b = d := fun e => hdb e.symm
      simp [hdb, hbd]

/-! ## Lemmas on the actor pass -/

theorem passInv_refl (w : World) (h : w.game.isUpdatingActors = true) :
    PassInv w w [] :=
  ⟨h, rfl, rfl, by simp, rfl⟩

theorem passInv_trans {w w1 w2 : World} {c1 c2 : List (Nat × Rat)}
    (h1 : PassInv w w1 c1) (h2 : PassInv w1 w2 c2) : PassInv w w2 (c1 ++ c2) := by
  refine ⟨h2.flag, h2.running.trans h1.running, h2.actors.trans h1.actors, ?_,
    h2.destroyed.trans h1.destroyed⟩
  rw [h2.updated, h1.updated, List.append_assoc]

theorem runOp_passInv (w : World) (op : Op) (h : w.game.isUpdatingActors = true) :
    PassInv w (w.runOp op) [] := by
  cases op with
  | addActor a =>
    refine ⟨?_, ?_, ?_, by simp [World.runOp], rfl⟩
    · simp [World.runOp, Game.addActor, h]
    · simp [World.runOp, Game.addActor, h]
    · simp [World.runOp, Game.addActor, h]
  | removeActor a =>
    by_cases hlive : a ∈ w.game.actors
    · simpa [World.runOp, hlive] using passInv_refl w h
    · refine ⟨?_, ?_, ?_, by simp [World.runOp, hlive], by simp [World.runOp, hlive]⟩
      · simpa [World.runOp, hlive, Game.removeActor] using h
      · simp [World.runOp, hlive, Game.removeActor]
      · simp only [World.runOp, hlive, if_false]
        show swapAndPop w.game.actors a = w.game.actors
        exact swapAndPop_of_not_mem _ a hlive
  | setState a s =>
    exact ⟨h, rfl, rfl, by simp [World.runOp], rfl⟩

theorem foldl_runOp_passInv (ops : List Op) (w : World)
    (h : w.game.isUpdatingActors = true) :
    PassInv w (ops.foldl World.runOp w) [] := by
  induction ops generalizing w with
  | nil => exact passInv_refl w h
  | cons op t ih =>
    have h1 := runOp_passInv w op h
    have h2 := ih (w.runOp op) h1.flag
    exact passInv_trans h1 h2

theorem update_eq_foldl_bodyOps (beh : Behaviour) (w : World) (actor : Nat) (dt : Rat) :
    Actor.update beh w actor dt
      = (bodyOps beh w actor dt).foldl World.runOp
          { w with updated := w.updated ++ [(actor, dt)] } := by
  unfold Actor.update bodyOps
  by_cases hs : w.state actor = ActorState.Active
  · simp only [hs, if_true]
  · simp only [hs, if_false, List.foldl_nil]

theorem update_passInv (beh : Behaviour) (w : World) (actor : Nat) (dt : Rat)
    (h : w.game.isUpdatingActors = true) :
    PassInv w (Actor.update beh w actor dt) [(actor, dt)] := by
  have h0 : PassInv w { w with updated := w.updated ++ [(actor, dt)] } [(actor, dt)] :=
    ⟨h, rfl, rfl, rfl, rfl⟩
  rw [update_eq_foldl_bodyOps]
  have hp := foldl_runOp_passInv (bodyOps beh w actor dt)
    { w with updated := w.updated ++ [(actor, dt)] } h
  simpa using passInv_trans h0 hp

theorem actorLoop_passInv (beh : Behaviour) (dt : Rat) (n i : Nat) (w : World)
    (h : w.game.isUpdatingActors = true) :
    PassInv w (actorLoop beh dt n i w)
      (((w.game.actors.drop i).take n).map (fun actor => (actor, dt))) := by
  induction n generalizing i w with
  | zero => simpa [actorLoop] using passInv_refl w h
  | succ n ih =>
    unfold actorLoop
    cases hget : w.game.actors[i]? with
    | none =>
      have hle : w.game.actors.length ≤ i := List.getElem?_eq_none_iff.1 hget
      simpa [List.drop_eq_nil_of_le hle] using passInv_refl w h
    | some actor =>
      obtain ⟨hi, hai⟩ := List.getElem?_eq_some.1 hget
      have hu := update_passInv beh w actor dt h
      have hl := ih (i + 1) (Actor.update beh w actor dt) hu.flag
      have hdrop : w.game.actors.drop i = actor :: w.game.actors.drop (i + 1) := by
        rw [← hai]
        exact List.drop_eq_getElem_cons hi
      have := passInv_trans hu hl
      simpa [hu.actors, hdrop] using this

theorem actorPass_passInv (beh : Behaviour) (dt : Rat) (w : World) :
    PassInv { w with game := { w.game with isUpdatingActors := true } }
      (actorLoop beh dt w.game.actors.length 0
        { w with game := { w.game with isUpdatingActors := true } })
      (w.game.actors.map (fun actor => (actor, dt))) := by
  have hl := actorLoop_passInv beh dt w.game.actors.length 0
    { w with game := { w.game with isUpdatingActors := true } } rfl
  simpa using hl

theorem actorPass_fields (beh : Behaviour) (dt : Rat) (w : World) :
    (actorPass beh dt w).game.isUpdatingActors = false ∧
    (actorPass beh dt w).game.isRunning = w.game.isRunning ∧
    (actorPass beh dt w).game.actors = w.game.actors ∧
    (actorPass beh dt w).updated = w.updated ++ w.game.actors.map (fun actor => (actor, dt)) ∧
    (actorPass beh dt w).destroyed = w.destroyed := by
  have hl := actorPass_passInv beh dt w
  exact ⟨rfl, hl.running, hl.actors, hl.updated, hl.destroyed⟩

theorem count_pending_runOp (a : Nat) (op : Op) (w : World)
    (hadd : op ≠ Op.addActor a) (hrem : op ≠ Op.removeActor a) :
    (w.runOp op).game.pendingActors.count a = w.game.pendingActors.count a := by
  cases op with
  | addActor b =>
    have hba : ¬ b = a := fun e => hadd (by rw [e])
    have hab : ¬ a = b := fun e => hba e.symm
    cases hflag : w.game.isUpdatingActors
    · simp [World.runOp, Game.addActor, hflag]
    · simp only [World.runOp, Game.addActor, hflag, if_true, List.count_append]
      have : List.count a [b] = 0 := by
        rw [List.count_eq_zero]
        simpa using hab
      omega
  | removeActor b =>
    have hba : ¬ b = a := fun e => hrem (by rw [e])
    by_cases hlive : b ∈ w.game.actors
    · simp [World.runOp, hlive]
    · simp only [World.runOp, hlive, if_false]
      show (swapAndPop w.game.pendingActors b).count a = w.game.pendingActors.count a
      rw [count_swapAndPop]
      simp [hba]
  | setState b s => rfl

theorem count_pending_foldl_runOp (a : Nat) (ops : List Op) (w : World)
    (hadd : Op.addActor a ∉ ops) (hrem : Op.removeActor a ∉ ops) :
    (ops.foldl World.runOp w).game.pendingActors.count a = w.game.pendingActors.count a := by
  induction ops generalizing w with
  | nil => rfl
  | cons op t ih =>
    have h1 := count_pending_runOp a op w
      (fun e => hadd (by simp [e])) (fun e => hrem (by simp [e]))
    rw [List.foldl_cons, ih (w.runOp op) (fun h => hadd (List.mem_cons_of_mem _ h))
      (fun h => hrem (List.mem_cons_of_mem _ h)), h1]

theorem count_pending_actorLoop (beh : Behaviour) (dt : Rat) (a : Nat) (n i : Nat) (w : World)
    (hadd : Op.addActor a ∉ loopOps beh dt n i w)
    (hrem : Op.removeActor a ∉ loopOps beh dt n i w) :
    (actorLoop beh dt n i w).game.pendingActors.count a = w.game.pendingActors.count a := by
  induction n generalizing i w with
  | zero => rfl
  | succ n ih =>
    unfold actorLoop
    unfold loopOps at hadd hrem
    cases hget : w.game.actors[i]? with
    | none => rfl
    | some actor =>
      simp only [hget, List.mem_append, not_or] at hadd hrem
      have hrest := ih (i + 1) (Actor.update beh w actor dt) hadd.2 hrem.2
      have hbody : (Actor.update beh w actor dt).game.pendingActors.count a
          = w.game.pendingActors.count a := by
        rw [update_eq_foldl_bodyOps]
        exact count_pending_foldl_runOp a _ _ hadd.1 hrem.1
      simp only [hrest, hbody]

theorem count_pending_actorPass (beh : Behaviour) (dt : Rat) (a : Nat) (w : World)
    (hadd : Op.addActor a ∉ passOps beh dt w) (hrem : Op.removeActor a ∉ passOps beh dt w) :
    (actorPass beh dt w).game.pendingActors.count a = w.game.pendingActors.count a :=
  count_pending_actorLoop beh dt a w.game.actors.length 0
    { w with game := { w.game with isUpdatingActors := true } } hadd hrem

/-! ## Lemmas on the flush, the reap scan and the destroy step -/

theorem foldl_emplaceBack (ps v : List Nat) :
    ps.foldl (fun acc pendingActor => acc ++ [pendingActor]) v = v ++ ps := by
  induction ps generalizing v with
  | nil => simp
  | cons p t ih => simp [ih]

theorem flush_actors (g : Game) : g.flush.actors = g.actors ++ g.pendingActors := by
  simp [Game.flush, foldl_emplaceBack]

theorem foldl_collect_dead (st : Nat → ActorState) (l acc : List Nat) :
    l.foldl (fun acc actor => if st actor = ActorState.Dead then acc ++ [actor] else acc) acc
      = acc ++ l.filter (fun actor => decide (st actor = ActorState.Dead)) := by
  induction l generalizing acc with
  | nil => simp
  | cons b t ih =>
    by_cases hb : st b = ActorState.Dead
    · simp [ih, hb]
    · simp [ih, hb]

theorem deadActors_eq_filter (w : World) :
    deadActors w = w.game.actors.filter (fun actor => decide (w.state actor = ActorState.Dead)) := by
  simp [deadActors, foldl_collect_dead]

theorem foldl_delete (ds : List Nat) (w : World) :
    (ds.foldl Actor.delete w).game.actors = ds.foldl swapAndPop w.game.actors ∧
    (ds.foldl Actor.delete w).game.pendingActors = ds.foldl swapAndPop w.game.pendingActors ∧
    (ds.foldl Actor.delete w).game.isUpdatingActors = w.game.isUpdatingActors ∧
    (ds.foldl Actor.delete w).game.isRunning = w.game.isRunning ∧
    (ds.foldl Actor.delete w).destroyed = w.destroyed ++ ds ∧
    (ds.foldl Actor.delete w).updated = w.updated ∧
    (ds.foldl Actor.delete w).state = w.state := by
  induction ds generalizing w with
  | nil => simp
  | cons d t ih =>
    obtain ⟨h1, h2, h3, h4, h5, h6, h7⟩ := ih (Actor.delete w d)
    simp only [List.foldl_cons]
    refine ⟨h1, h2, h3, h4, ?_, h6, h7⟩
    rw [h5]
    simp [Actor.delete]

theorem update_destroyed (beh : Behaviour) (dt : Rat) (w : World) :
    (Game.update beh dt w).destroyed
      = w.destroyed ++ (beforeReap beh dt w).game.actors.filter
          (fun actor => decide ((beforeReap beh dt w).state actor = ActorState.Dead)) := by
  unfold Game.update reap
  rw [(foldl_delete _ _).2.2.2.2.1, deadActors_eq_filter]
  have : (beforeReap beh dt w).destroyed = w.destroyed := (actorPass_fields beh dt w).2.2.2.2
  rw [this]

theorem count_update_actors (beh : Behaviour) (dt : Rat) (w : World) (a : Nat) :
    (Game.update beh dt w).game.actors.count a
      = if (beforeReap beh dt w).state a = ActorState.Dead then 0
        else (beforeReap beh dt w).game.actors.count a := by
  unfold Game.update reap
  rw [(foldl_delete _ _).1, count_foldl_swapAndPop, deadActors_eq_filter]
  by_cases hd : (beforeReap beh dt w).state a = ActorState.Dead
  · rw [List.count_filter (by simpa using hd)]
    simp [hd]
  · have hnot : a ∉ (beforeReap beh dt w).game.actors.filter
        (fun actor => decide ((beforeReap beh dt w).state actor = ActorState.Dead)) := by
      intro hmem
      have := (List.mem_filter.1 hmem).2
      exact hd (by simpa using this)
    rw [List.count_eq_zero_of_not_mem hnot]
    simp [hd]

/-! ## C1: the actor pass -/

/-- C2: for every game state and every actor `a`, `addActor(a)` appends `a` to
the pending queue and leaves the live collection unchanged when
`isUpdatingActors` is true, and appends `a` to the live collection and leaves
the pending queue unchanged otherwise; both flags are unchanged, and `a` is
appended even when it is already present: its number of occurrences in the two
collections together grows by one. -/
theorem addActor_appends (g : Game) (a : Nat) :
    (g.addActor a).pendingActors
      = (if g.isUpdatingActors = true then g.pendingActors ++ [a] else g.pendingActors) ∧
    (g.addActor a).actors
      = (if g.isUpdatingActors = true then g.actors else g.actors ++ [a]) ∧
    (g.addActor a).isUpdatingActors = g.isUpdatingActors ∧
    (g.addActor a).isRunning = g.isRunning ∧
    (g.addActor a).pendingActors.count a + (g.addActor a).actors.count a
      = g.pendingActors.count a + g.actors.count a + 1 := by
  unfold Game.addActor
  cases hflag : g.isUpdatingActors
  · simp
    omega
  · simp
    omega

/-! ## C4: the flush step -/

/-- C4: for every game state, the flush step of `Game::update` makes the live
collection equal to the live collection before the flush followed by the
entries of the pending queue in queue order, and leaves the pending queue empty
and the flags unchanged; inside `Game::update` it runs on the world left by the
actor pass, and the result is the world the reap scan reads. -/
theorem flush_appends_pending_in_order (g : Game) (beh : Behaviour) (dt : Rat) (w : World) :
    g.flush.actors = g.actors ++ g.pendingActors ∧
    g.flush.pendingActors = [] ∧
    g.flush.isUpdatingActors = g.isUpdatingActors ∧
    g.flush.isRunning = g.isRunning ∧
    (beforeReap beh dt w).game = (actorPass beh dt w).game.flush ∧
    (beforeReap beh dt w).game.actors
      = (actorPass beh dt w).game.actors ++ (actorPass beh dt w).game.pendingActors := by
  refine ⟨flush_actors g, rfl, rfl, rfl, rfl, ?_⟩
  exact flush_actors _

/-! ## C3: actors added while the flag is raised -/

theorem foldl_addActor_updating (as : List Nat) (g : Game) (h : g.isUpdatingActors = true) :
    as.foldl Game.addActor g = { g with pendingActors := g.pendingActors ++ as } := by
  induction as generalizing g with
  | nil => simp
  | cons a t ih =>
    have hstep : g.addActor a = { g with pendingActors := g.pendingActors ++ [a] } := by
      simp [Game.addActor, h]
    rw [List.foldl_cons, ih (g.addActor a) (by rw [hstep]; exact h), hstep]
    simp

/-- C3, as stated, fails: in `midPassWorld` (flag raised, nothing registered)
`addActor(1)` is called on the `Dead` actor 1; the next call of `Game::update`
flushes it into the live collection and reaps it at once, so afterwards it
occurs in the live collection zero times, not once.  In `busyWorld` actor 3 is
added once while the flag is raised (it is in neither collection before); when
the update body of actor 1 registers it again during the next update it occurs
twice afterwards, and when that body calls `removeActor(3)` instead, which takes
it out of the pending queue, it does not occur at all. -/
theorem added_dead_actor_absent_after_update :
    midPassWorld.game.isUpdatingActors = true ∧
    1 ∉ midPassWorld.game.actors ∧ 1 ∉ midPassWorld.game.pendingActors ∧
    (Game.update idle 0
      { midPassWorld with game := [1].foldl Game.addActor midPassWorld.game }).game.actors.count 1
      = 0 ∧
    busyWorld.game.isUpdatingActors = true ∧
    3 ∉ busyWorld.game.actors ∧ 3 ∉ busyWorld.game.pendingActors ∧
    (Game.update addThree 0
      { busyWorld with game := [3].foldl Game.addActor busyWorld.game }).game.actors.count 3
      = 2 ∧
    (Game.update dropThree 0
      { busyWorld with game := [3].foldl Game.addActor busyWorld.game }).game.actors.count 3
      = 0 := by
  refine ⟨rfl, ?_, ?_, rfl, rfl, ?_, ?_, rfl, rfl⟩ <;> simp [midPassWorld, busyWorld]

/-- C3, amended: for every world state in which `isUpdatingActors` is true and
every sequence `as` of `addActor` calls on distinct actors that are in neither
collection, those calls append the actors to the pending queue and leave the
live collection unchanged, so the added actors are absent from it until the
next call of `Game::update`; after that call, each added actor that is not
`Dead` at its reap scan and that no update body passes to `addActor` or to
`removeActor` during that call is present in the live collection exactly
once. -/
theorem added_actors_live_after_next_update (beh : Behaviour) (dt : Rat) (w : World)
    (as : List Nat) (hflag : w.game.isUpdatingActors = true) (hdistinct : as.Nodup)
    (hfresh : ∀ a ∈ as, a ∉ w.game.actors ∧ a ∉ w.game.pendingActors) :
    (as.foldl Game.addActor w.game).actors = w.game.actors ∧
    (as.foldl Game.addActor w.game).pendingActors = w.game.pendingActors ++ as ∧
    (∀ a ∈ as, a ∉ (as.foldl Game.addActor w.game).actors) ∧
    ∀ a ∈ as,
      (beforeReap beh dt { w with game := as.foldl Game.addActor w.game }).state a
        ≠ ActorState.Dead →
      Op.addActor a ∉ passOps beh dt { w with game := as.foldl Game.addActor w.game } →
      Op.removeActor a ∉ passOps beh dt { w with game := as.foldl Game.addActor w.game } →
      (Game.update beh dt { w with game := as.foldl Game.addActor w.game }).game.actors.count a
        = 1 := by
  rw [foldl_addActor_updating as w.game hflag]
  refine ⟨rfl, rfl, fun a ha => (hfresh a ha).1, ?_⟩
  intro a ha hlive hnoadd hnoremove
  rw [count_update_actors, if_neg hlive]
  have hact := (actorPass_fields beh dt
    { w with game := { w.game with pendingActors := w.game.pendingActors ++ as } }).2.2.1
  have hpend := count_pending_actorPass beh dt a
    { w with game := { w.game with pendingActors := w.game.pendingActors ++ as } }
    hnoadd hnoremove
  have hflush : (beforeReap beh dt
      { w with game := { w.game with pendingActors := w.game.pendingActors ++ as } }).game.actors
      = w.game.actors ++ (actorPass beh dt
          { w with game := { w.game with pendingActors := w.game.pendingActors ++ as } }
        ).game.pendingActors := by
    unfold beforeReap
    simp only [flush_actors]
    rw [hact]
  rw [hflush, List.count_append, hpend]
  have h1 : w.game.actors.count a = 0 := List.count_eq_zero_of_not_mem (hfresh a ha).1
  have h2 : w.game.pendingActors.count a = 0 := List.count_eq_zero_of_not_mem (hfresh a ha).2
  have h3 : as.count a = 1 := List.count_eq_one_of_mem hdistinct ha
  simp only [List.count_append, h1, h2, h3]

/-- C3, amended, at a concrete input: in `busyWorld` the actors 3 and 4 are added
while the flag is raised; after the next update actor 3 is live exactly once. -/
theorem added_actors_live_after_next_update_witness :
    (Game.update idle 0
      { busyWorld with game := [3, 4].foldl Game.addActor busyWorld.game }).game.actors.count 3
      = 1 :=
  (added_actors_live_after_next_update idle 0 busyWorld [3, 4] rfl (by decide)
    (by simp [busyWorld])).2.2.2 3 (by simp) (by decide) (by decide) (by decide)

/-! ## C5 and C6: the reap scan and the destroy step -/

/-- C5: for every world state, every behaviour and every `dt`, after
`Game::update` returns the live collection contains no actor whose state was
`Dead` at the reap scan (the destroy step of that same call, which runs the
swap-and-pop of `removeActor` once per entry of the removal list, erased every
occurrence of it), while every actor that was not `Dead` at the reap scan occurs
in the live collection as often as it did at the reap scan; in particular every
such actor that was live when `Game::update` was called is still live. -/
theorem update_erases_dead_keeps_others (beh : Behaviour) (dt : Rat) (w : World) (a : Nat) :
    (Game.update beh dt w).game.actors
      = (deadActors (beforeReap beh dt w)).foldl swapAndPop (beforeReap beh dt w).game.actors ∧
    ((beforeReap beh dt w).state a = ActorState.Dead →
      a ∉ (Game.update beh dt w).game.actors) ∧
    ((beforeReap beh dt w).state a ≠ ActorState.Dead →
      (Game.update beh dt w).game.actors.count a = (beforeReap beh dt w).game.actors.count a) ∧
    ((beforeReap beh dt w).state a ≠ ActorState.Dead → a ∈ w.game.actors →
      a ∈ (Game.update beh dt w).game.actors) := by
  have hc := count_update_actors beh dt w a
  refine ⟨(foldl_delete _ _).1, ?_, ?_, ?_⟩
  · intro hd
    rw [if_pos hd] at hc
    exact List.count_eq_zero.1 hc
  · intro hd
    rw [if_neg hd] at hc
    exact hc
  · intro hd hmem
    rw [if_neg hd] at hc
    have hact : (beforeReap beh dt w).game.actors
        = w.game.actors ++ (actorPass beh dt w).game.pendingActors := by
      unfold beforeReap
      simp only [flush_actors]
      rw [(actorPass_fields beh dt w).2.2.1]
    have hpos : 0 < (beforeReap beh dt w).game.actors.count a := by
      rw [List.count_pos_iff, hact]
      exact List.mem_append_left _ hmem
    rw [← hc] at hpos
    exact List.count_pos_iff.1 hpos

/-- C6, as stated, fails: in `twiceDeadWorld` the `Dead` actor 1 is listed twice
in the live collection, the removal list names it twice and one call of
`Game::update` applies `delete` to it twice. -/
theorem update_deletes_repeated_dead_actor_twice :
    twiceDeadWorld.state 1 = ActorState.Dead ∧
    1 ∈ twiceDeadWorld.game.actors ∧
    deadActors (beforeReap idle 0 twiceDeadWorld) = [1, 1] ∧
    deletesDuring twiceDeadWorld (Game.update idle 0 twiceDeadWorld) = [1, 1] := by
  refine ⟨rfl, ?_, rfl, rfl⟩
  simp [twiceDeadWorld]

/-- C6, amended: for every world state, one call of `Game::update` applies
`delete` to exactly the entries of the live collection whose state is `Dead` at
the reap scan, once per entry and in collection order: the deletes are the
removal list, which is the live collection filtered by `Dead`.  Hence an actor
that is `Dead` at the reap scan is destroyed as often as it occurs in the live
collection then, exactly once when it occurs exactly once, and no actor that is
not `Dead` is destroyed. -/
theorem update_deletes_each_dead_entry_once (beh : Behaviour) (dt : Rat) (w : World) :
    deletesDuring w (Game.update beh dt w) = deadActors (beforeReap beh dt w) ∧
    deadActors (beforeReap beh dt w)
      = (beforeReap beh dt w).game.actors.filter
          (fun actor => decide ((beforeReap beh dt w).state actor = ActorState.Dead)) ∧
    (∀ a, (beforeReap beh dt w).state a = ActorState.Dead →
      (deletesDuring w (Game.update beh dt w)).count a
        = (beforeReap beh dt w).game.actors.count a) ∧
    (∀ a, (beforeReap beh dt w).state a = ActorState.Dead →
      (beforeReap beh dt w).game.actors.count a = 1 →
      (deletesDuring w (Game.update beh dt w)).count a = 1) ∧
    (∀ b, (beforeReap beh dt w).state b ≠ ActorState.Dead →
      b ∉ deletesDuring w (Game.update beh dt w)) := by
  have hdel : deletesDuring w (Game.update beh dt w) = deadActors (beforeReap beh dt w) := by
    unfold deletesDuring
    rw [update_destroyed, deadActors_eq_filter]
    simp
  have hcount : ∀ a, (beforeReap beh dt w).state a = ActorState.Dead →
      (deletesDuring w (Game.update beh dt w)).count a
        = (beforeReap beh dt w).game.actors.count a := by
    intro a hdead
    rw [hdel, deadActors_eq_filter, List.count_filter (by simpa using hdead)]
  refine ⟨hdel, deadActors_eq_filter _, hcount, ?_, ?_⟩
  · intro a hdead honce
    rw [hcount a hdead, honce]
  · intro b hb hmem
    rw [hdel, deadActors_eq_filter] at hmem
    have := (List.mem_filter.1 hmem).2
    exact hb (by simpa using this)

/-- C6, amended, at a concrete input: in `reapWorld` the `Dead` actor 1 is live
once, and one update deletes it once and nothing else. -/
theorem update_deletes_each_dead_entry_once_witness :
    (deletesDuring reapWorld (Game.update idle 0 reapWorld)).count 1 = 1 ∧
    deletesDuring reapWorld (Game.update idle 0 reapWorld) = [1] :=
  ⟨(update_deletes_each_dead_entry_once idle 0 reapWorld).2.2.2.1 1 rfl rfl,
   (update_deletes_each_dead_entry_once idle 0 reapWorld).1.trans rfl⟩

/-! ## C7, C8 and C9: `Game::removeActor` -/

theorem removeActor_fields (g : Game) (a : Nat) :
    g.removeActor a
      = { g with pendingActors := swapAndPop g.pendingActors a,
                 actors := swapAndPop g.actors a } :=
  rfl

theorem removeActor_collection (g : Game) (a : Nat) (c : Collection) :
    (g.removeActor a).collection c = swapAndPop (g.collection c) a := by
  cases c <;> rfl

/-- C7: for every game state, every actor `a` and each of the two collections:
when `a` occurs in the collection with first occurrence at index `i`, after
`removeActor(a)` the collection is one entry shorter and equals the old
collection with the entry at index `i` replaced by the old last entry and the
last slot dropped (the old collection without its last entry when `i` is the
last index); every other actor keeps its number of occurrences (and `a`
loses exactly one); a collection that does not contain `a` is unchanged. -/
theorem removeActor_swaps_with_last_and_pops (g : Game) (a : Nat) (c : Collection) :
    (∀ (i : Nat) (hi : i < (g.collection c).length),
      (g.collection c).get ⟨i, hi⟩ = a →
      (∀ j (hj : j < i), (g.collection c).get ⟨j, Nat.lt_trans hj hi⟩ ≠ a) →
      ((g.removeActor a).collection c).length = (g.collection c).length - 1 ∧
      (g.removeActor a).collection c
        = ((g.collection c).set i
            ((g.collection c).getLast (List.ne_nil_of_length_pos (Nat.zero_lt_of_lt hi)))).dropLast ∧
      (i = (g.collection c).length - 1 →
        (g.removeActor a).collection c = (g.collection c).dropLast) ∧
      ((g.removeActor a).collection c).count a + 1 = (g.collection c).count a) ∧
    (∀ b, b ≠ a → ((g.removeActor a).collection c).count b = (g.collection c).count b) ∧
    (a ∉ g.collection c → (g.removeActor a).collection c = g.collection c) ∧
    (g.removeActor a).isRunning = g.isRunning ∧
    (g.removeActor a).isUpdatingActors = g.isUpdatingActors := by
  rw [removeActor_collection]
  refine ⟨?_, ?_, swapAndPop_of_not_mem _ a, rfl, rfl⟩
  · intro i hi hat hfirst
    have hmem : a ∈ g.collection c := hat ▸ List.get_mem _ i hi
    have hfind : find (g.collection c) a = i := find_eq_of_first _ a i hi hat hfirst
    refine ⟨length_swapAndPop_of_mem _ a hmem, ?_, ?_, ?_⟩
    · rw [swapAndPop_eq_set_dropLast _ a hmem, hfind]
    · intro hlast
      rw [swapAndPop_eq_set_dropLast _ a hmem, hfind, hlast]
      exact dropLast_set_last _ _
    · rw [count_swapAndPop]
      have : 0 < (g.collection c).count a := List.count_pos_iff.2 hmem
      simp
      omega
  · intro b hb
    rw [count_swapAndPop]
    have hab : ¬ a = b := fun e => hb e.symm
    simp [hab]

/-- C7 at a concrete input: actor 2 first occurs at index 1 of the live
collection `[1, 2, 3, 4]` of `sampleGame`; the last entry 4 takes its place. -/
theorem removeActor_swaps_with_last_and_pops_witness :
    (sampleGame.removeActor 2).collection Collection.live = [1, 4, 3] :=
  ((removeActor_swaps_with_last_and_pops sampleGame 2 Collection.live).1 1 (by decide) rfl
    (by decide)).2.1.trans rfl

/-- C8: for every game state and every actor `a` that is in neither the pending
queue nor the live collection, `removeActor(a)` returns normally and leaves the
pending queue, the live collection and both flags exactly as they were. -/
theorem removeActor_absent_is_noop (g : Game) (a : Nat)
    (hpending : a ∉ g.pendingActors) (hlive : a ∉ g.actors) :
    g.removeActor a = g := by
  rw [removeActor_fields, swapAndPop_of_not_mem _ a hpending, swapAndPop_of_not_mem _ a hlive]

/-- C8 at concrete inputs: actor 9 is in no collection of `sampleGame`. -/
theorem removeActor_absent_is_noop_witness : sampleGame.removeActor 9 = sampleGame :=
  removeActor_absent_is_noop sampleGame 9 (by decide) (by decide)

/-- C9, as stated, fails: in `doubledGame` actor 1 is listed twice in the live
collection; the first `removeActor(1)` leaves one occurrence and the second call
removes that one too, so the second call does change the live collection. -/
theorem removeActor_twice_differs_on_repeated_actor :
    (doubledGame.removeActor 1).actors = [1] ∧
    ((doubledGame.removeActor 1).removeActor 1).actors = [] ∧
    (doubledGame.removeActor 1).removeActor 1 ≠ doubledGame.removeActor 1 := by
  decide

/-- C9, amended: for every game state and every actor `a` that occurs at most
once in the pending queue and at most once in the live collection, calling
`removeActor(a)` twice in a row leaves the game in the same state as calling it
once: the second call changes neither collection. -/
theorem removeActor_idempotent_without_repeats (g : Game) (a : Nat)
    (hpending : g.pendingActors.count a ≤ 1) (hlive : g.actors.count a ≤ 1) :
    (g.removeActor a).removeActor a = g.removeActor a := by
  have h1 : a ∉ (g.removeActor a).pendingActors := by
    rw [← List.count_eq_zero]
    show (swapAndPop g.pendingActors a).count a = 0
    rw [count_swapAndPop]
    simp
    omega
  have h2 : a ∉ (g.removeActor a).actors := by
    rw [← List.count_eq_zero]
    show (swapAndPop g.actors a).count a = 0
    rw [count_swapAndPop]
    simp
    omega
  rw [removeActor_fields (g.removeActor a), swapAndPop_of_not_mem _ a h1,
    swapAndPop_of_not_mem _ a h2]

/-- C9, amended, at a concrete input: actor 2 occurs once in each collection of
`sampleGame`. -/
theorem removeActor_idempotent_without_repeats_witness :
    (sampleGame.removeActor 2).removeActor 2 = sampleGame.removeActor 2 :=
  removeActor_idempotent_without_repeats sampleGame 2 (by decide) (by decide)

/-! ## C10: the points plotted by one iteration of the circle loop -/

/-- C10 on the code: one iteration of the loop of `drawCircle` plots the 8-way
symmetric point set of the current step exactly when `centreX = centreY`; the
fifth call passes `centreY + y` as the horizontal coordinate.  For the centre
`(100, 200)` and radius 50, the second iteration (step `(49, 1)`) plots
`(201, 151)`, which is not in the symmetric set, and never plots the required
point `(101, 151)`. -/
theorem plotIteration_fifth_point_uses_centreY :
    (∀ cx cy : Int, ∀ s : CircleVars,
      plotIteration cx cy s = symmetricPoints cx cy s.x s.y ↔ cx = cy) ∧
    circleAdvance 100 (circleInit 50) = { x := 49, y := 1, tx := 1, ty := 3, error := -98 } ∧
    plotIteration 100 200 (circleAdvance 100 (circleInit 50))
      = [(149, 199), (149, 201), (51, 199), (51, 201),
         (201, 151), (101, 249), (99, 151), (99, 249)] ∧
    (101, 151) ∈ symmetricPoints 100 200 49 1 ∧
    (101, 151) ∉ plotIteration 100 200 (circleAdvance 100 (circleInit 50)) ∧
    (201, 151) ∉ symmetricPoints 100 200 49 1 := by
  refine ⟨?_, by decide, by decide, by decide, by decide, by decide⟩
  intro cx cy s
  constructor
  · intro h
    simp only [plotIteration, symmetricPoints, List.cons.injEq, Prod.mk.injEq, and_true,
      true_and] at h
    omega
  · intro h
    subst h
    rfl

/-! ## Lemmas on the circle loop -/

theorem wrap32_eq (n : Int) (h1 : -2147483648 ≤ n) (h2 : n < 2147483648) : wrap32 n = n := by
  unfold wrap32
  omega

theorem circleAdvance_in_range (r : Int) (s : CircleVars) (hr1 : 1 ≤ r)
    (hr2 : r < 1073741824) (hinv : CircleInv r s) (hloop : s.y ≤ s.x) :
    circleAdvance (wrap32 (r * 2)) s
      = if s.error + s.ty > 0 then
          { x := s.x - 1, y := s.y + 1, tx := s.tx + 2, ty := s.ty + 2,
            error := s.error + s.ty + (s.tx + 2 - r * 2) }
        else
          { x := s.x, y := s.y + 1, tx := s.tx, ty := s.ty + 2, error := s.error + s.ty } := by
  obtain ⟨hy0, hyr, hx0, hxr, hty, htx, _, hele, hege⟩ := hinv
  have he : s.error ≤ 0 := hele hloop
  have hd : wrap32 (r * 2) = r * 2 := wrap32_eq _ (by omega) (by omega)
  have h1 : wrap32 (s.y + 1) = s.y + 1 := wrap32_eq _ (by omega) (by omega)
  have h2 : wrap32 (s.error + s.ty) = s.error + s.ty := wrap32_eq _ (by omega) (by omega)
  have h3 : wrap32 (s.ty + 2) = s.ty + 2 := wrap32_eq _ (by omega) (by omega)
  have h4 : wrap32 (s.x - 1) = s.x - 1 := wrap32_eq _ (by omega) (by omega)
  have h5 : wrap32 (s.tx + 2) = s.tx + 2 := wrap32_eq _ (by omega) (by omega)
  have h6 : wrap32 (s.tx + 2 - r * 2) = s.tx + 2 - r * 2 := wrap32_eq _ (by omega) (by omega)
  unfold circleAdvance
  simp only [he, if_true, hd, h1, h2, h3, h4, h5, h6]
  by_cases hpos : s.error + s.ty > 0
  · have h7 : wrap32 (s.error + s.ty + (s.tx + 2 - r * 2))
        = s.error + s.ty + (s.tx + 2 - r * 2) := wrap32_eq _ (by omega) (by omega)
    simp only [hpos, if_true, h7]
  · simp only [hpos, if_false]

theorem circleAdvance_keeps_invariant (r : Int) (s : CircleVars) (hr1 : 1 ≤ r)
    (hr2 : r < 1073741824) (hinv : CircleInv r s) (hloop : s.y ≤ s.x) :
    CircleInv r (circleAdvance (wrap32 (r * 2)) s) ∧
    ((circleAdvance (wrap32 (r * 2)) s).y = s.y + 1 ∨
      (circleAdvance (wrap32 (r * 2)) s).x = s.x - 1) ∧
    (circleAdvance (wrap32 (r * 2)) s).x - (circleAdvance (wrap32 (r * 2)) s).y
      < s.x - s.y := by
  rw [circleAdvance_in_range r s hr1 hr2 hinv hloop]
  obtain ⟨hy0, hyr, hx0, hxr, hty, htx, herr, hele, hege⟩ := hinv
  have he : s.error ≤ 0 := hele hloop
  by_cases hpos : s.error + s.ty > 0
  · simp only [hpos, if_true]
    refine ⟨⟨?_, ?_, ?_, ?_, ?_, ?_, ?_, ?_, ?_⟩, Or.inl trivial, ?_⟩ <;> dsimp only
    · omega
    · omega
    · omega
    · omega
    · omega
    · omega
    · rw [herr, hty, htx]
      ring
    · intro _
      omega
    · omega
    · omega
  · simp only [hpos, if_false]
    refine ⟨⟨?_, ?_, ?_, ?_, ?_, ?_, ?_, ?_, ?_⟩, Or.inl trivial, ?_⟩ <;> dsimp only
    · omega
    · omega
    · omega
    · omega
    · omega
    · omega
    · rw [herr, hty]
      ring
    · intro _
      omega
    · omega
    · omega

theorem circleLoop_run (cx cy r : Int) (hr1 : 1 ≤ r) (hr2 : r < 1073741824) (fuel : Nat)
    (s : CircleVars) (hinv : CircleInv r s) (h : s.x - s.y < (fuel : Int)) :
    ∃ k, k ≤ fuel ∧
      circleLoop cx cy (wrap32 (r * 2)) fuel s
        = some ((List.range k).flatMap
            (fun i => plotIteration cx cy ((circleAdvance (wrap32 (r * 2)))^[i] s))) ∧
      (∀ i, i < k → ((circleAdvance (wrap32 (r * 2)))^[i] s).y
        ≤ ((circleAdvance (wrap32 (r * 2)))^[i] s).x) ∧
      ((circleAdvance (wrap32 (r * 2)))^[k] s).x < ((circleAdvance (wrap32 (r * 2)))^[k] s).y ∧
      (∀ i, i ≤ k → CircleInv r ((circleAdvance (wrap32 (r * 2)))^[i] s)) ∧
      (∀ i, i < k →
        (((circleAdvance (wrap32 (r * 2)))^[i + 1] s).y
            = ((circleAdvance (wrap32 (r * 2)))^[i] s).y + 1 ∨
          ((circleAdvance (wrap32 (r * 2)))^[i + 1] s).x
            = ((circleAdvance (wrap32 (r * 2)))^[i] s).x - 1) ∧
        ((circleAdvance (wrap32 (r * 2)))^[i + 1] s).x
            - ((circleAdvance (wrap32 (r * 2)))^[i + 1] s).y
          < ((circleAdvance (wrap32 (r * 2)))^[i] s).x
            - ((circleAdvance (wrap32 (r * 2)))^[i] s).y) := by
  induction fuel generalizing s with
  | zero =>
    have hlt : s.x < s.y := by
      have : s.x - s.y < 0 := by simpa using h
      omega
    have hn : ¬ s.x ≥ s.y := by omega
    refine ⟨0, Nat.le_refl 0, by simp [circleLoop, hn], fun i hi => by omega,
      by simpa using hlt, ?_, fun i hi => by omega⟩
    intro i hi
    have hi0 : i = 0 := by omega
    subst hi0
    exact hinv
  | succ fuel ih =>
    by_cases hge : s.x ≥ s.y
    · obtain ⟨hinv1, hmove, hless⟩ := circleAdvance_keeps_invariant r s hr1 hr2 hinv hge
      have hfuel : (circleAdvance (wrap32 (r * 2)) s).x - (circleAdvance (wrap32 (r * 2)) s).y
          < (fuel : Int) := by
        have : s.x - s.y < (fuel : Int) + 1 := by exact_mod_cast h
        omega
      obtain ⟨k, hk, hrun, hbefore, hstop, hinvs, hmoves⟩ :=
        ih (circleAdvance (wrap32 (r * 2)) s) hinv1 hfuel
      refine ⟨k + 1, Nat.succ_le_succ hk, ?_, ?_, hstop, ?_, ?_⟩
      · simp only [circleLoop, hge, if_true, hrun, Option.map_some']
        rw [List.range_succ_eq_map, List.flatMap_cons, List.flatMap_map]
        rfl
      · intro i hi
        cases i with
        | zero => simpa using hge
        | succ j => exact hbefore j (by omega)
      · intro i hi
        cases i with
        | zero => exact hinv
        | succ j => exact hinvs j (by omega)
      · intro i hi
        cases i with
        | zero => exact ⟨hmove, hless⟩
        | succ j => exact hmoves j (by omega)
    · have hlt : s.x < s.y := by omega
      refine ⟨0, Nat.zero_le _, by simp [circleLoop, hge], fun i hi => by omega,
        by simpa using hlt, ?_, fun i hi => by omega⟩
      intro i hi
      have hi0 : i = 0 := by omega
      subst hi0
      exact hinv

theorem circleInit_in_range (r : Int) (hr1 : -1073741824 < r) (hr2 : r < 1073741824) :
    circleInit r = { x := r - 1, y := 0, tx := 1, ty := 1, error := 1 - r * 2 } := by
  have hd : wrap32 (r * 2) = r * 2 := wrap32_eq _ (by omega) (by omega)
  have hx : wrap32 (r - 1) = r - 1 := wrap32_eq _ (by omega) (by omega)
  have he : wrap32 (1 - r * 2) = 1 - r * 2 := wrap32_eq _ (by omega) (by omega)
  simp only [circleInit, hd, hx, he]

theorem circleInit_invariant (r : Int) (hr1 : 1 ≤ r) (hr2 : r < 1073741824) :
    CircleInv r (circleInit r) := by
  rw [circleInit_in_range r (by omega) hr2]
  refine ⟨by simp, by simp; omega, by simp; omega, by simp, by simp, by simp, ?_,
    fun _ => by simp; omega, by simp; omega⟩
  show 1 - r * 2 = (r - 1) ^ 2 + (0 : Int) ^ 2 - r ^ 2
  ring

/-- The three equations of the decision variables. -/
theorem circleInit_equations (r : Int) (hr1 : -1073741824 < r) (hr2 : r < 1073741824) :
    (circleInit r).ty = 2 * (circleInit r).y + 1 ∧
    (circleInit r).tx = 2 * (r - 1 - (circleInit r).x) + 1 ∧
    (circleInit r).error = (circleInit r).x ^ 2 + (circleInit r).y ^ 2 - r ^ 2 := by
  rw [circleInit_in_range r hr1 hr2]
  refine ⟨rfl, ?_, ?_⟩
  · show (1 : Int) = 2 * (r - 1 - (r - 1)) + 1
    ring
  · show 1 - r * 2 = (r - 1) ^ 2 + (0 : Int) ^ 2 - r ^ 2
    ring

theorem drawCircle_run (cx cy r : Int) (hr1 : -1073741824 < r) (hr2 : r < 1073741824) :
    ∃ k : Nat, (k : Int) ≤ max r 0 ∧
      drawCircle cx cy r
        = some ((List.range k).flatMap (fun i => plotIteration cx cy (circleState r i))) ∧
      (∀ i, i < k → (circleState r i).y ≤ (circleState r i).x) ∧
      (circleState r k).x < (circleState r k).y ∧
      (∀ i, i ≤ k →
        (circleState r i).ty = 2 * (circleState r i).y + 1 ∧
        (circleState r i).tx = 2 * (r - 1 - (circleState r i).x) + 1 ∧
        (circleState r i).error
          = (circleState r i).x ^ 2 + (circleState r i).y ^ 2 - r ^ 2) ∧
      (∀ i, i < k →
        ((circleState r (i + 1)).y = (circleState r i).y + 1 ∨
          (circleState r (i + 1)).x = (circleState r i).x - 1) ∧
        (circleState r (i + 1)).x - (circleState r (i + 1)).y
          < (circleState r i).x - (circleState r i).y) ∧
      (r ≤ 0 → k = 0) := by
  by_cases hpos : 1 ≤ r
  · have h : (circleInit r).x - (circleInit r).y < (r.toNat : Int) := by
      rw [circleInit_in_range r hr1 hr2]
      simp only
      omega
    obtain ⟨k, hk, hrun, hbefore, hstop, hinvs, hmoves⟩ :=
      circleLoop_run cx cy r hpos hr2 r.toNat (circleInit r) (circleInit_invariant r hpos hr2) h
    refine ⟨k, ?_, hrun, hbefore, hstop, ?_, hmoves, fun h0 => by omega⟩
    · have : (k : Int) ≤ (r.toNat : Int) := by exact_mod_cast hk
      omega
    · intro i hi
      exact ⟨(hinvs i hi).ty, (hinvs i hi).tx, (hinvs i hi).error⟩
  · have hx : (circleInit r).x < (circleInit r).y := by
      rw [circleInit_in_range r hr1 hr2]
      simp only
      omega
    have h0 : r.toNat = 0 := by omega
    refine ⟨0, by simp, ?_, fun i hi => by omega, hx, ?_, fun i hi => by omega, fun _ => rfl⟩
    · have hn : ¬ (circleInit r).x ≥ (circleInit r).y := by omega
      simp [drawCircle, h0, circleLoop, hn]
    · intro i hi
      have hi0 : i = 0 := by omega
      subst hi0
      exact circleInit_equations r hr1 hr2

/-! ## C11: the circle of radius 50 about (100, 100) -/

set_option maxRecDepth 100000 in
/-- C11: for radius 50 and owner position (100, 100), `drawCircle` returns after
36 iterations; the set of plotted points is closed under the 8 reflections about
the centre, and every plotted point `(px, py)` satisfies
`(px - 100)^2 + (py - 100)^2 <= (50 + 1)^2`. -/
theorem drawCircle_ball_symmetric_and_within_radius :
    ∃ pts, drawCircle 100 100 50 = some pts ∧
      pts = (List.range 36).flatMap (fun i => plotIteration 100 100 (circleState 50 i)) ∧
      (∀ p ∈ pts, ∀ q ∈ reflections 100 100 p, q ∈ pts) ∧
      (∀ p ∈ pts, (p.1 - 100) ^ 2 + (p.2 - 100) ^ 2 ≤ (50 + 1) ^ 2) := by
  have hrun : drawCircle 100 100 50
      = some ((List.range 36).flatMap (fun i => plotIteration 100 100 (circleState 50 i))) := by
    decide
  have hclosed : ∀ i ∈ List.range 36, ∀ p ∈ plotIteration 100 100 (circleState 50 i),
      ∀ q ∈ reflections 100 100 p, q ∈ plotIteration 100 100 (circleState 50 i) := by
    decide
  have hnear : ∀ i ∈ List.range 36, ∀ p ∈ plotIteration 100 100 (circleState 50 i),
      (p.1 - 100) ^ 2 + (p.2 - 100) ^ 2 ≤ (50 + 1) ^ 2 := by
    decide
  refine ⟨_, hrun, rfl, ?_, ?_⟩
  · intro p hp q hq
    obtain ⟨i, hi, hpi⟩ := List.mem_flatMap.1 hp
    exact List.mem_flatMap.2 ⟨i, hi, hclosed i hi p hpi q hq⟩
  · intro p hp
    obtain ⟨i, hi, hpi⟩ := List.mem_flatMap.1 hp
    exact hnear i hi p hpi

/-! ## C16 and C17: termination and the decision variables of the circle loop -/

/-- C17, as stated, fails: for the radius 1073741825 the 32-bit product
`radius * 2` wraps to -2147483646, so the error term starts at 2147483647 while
`x^2 + y^2 - r^2` is -2147483649 at the start of the first iteration, and after
that iteration the error term is 0 while `x^2 + y^2 - r^2` is -4294967296. -/
theorem circle_error_term_off_for_large_radius :
    circleState 1073741825 0
      = { x := 1073741824, y := 0, tx := 1, ty := 1, error := 2147483647 } ∧
    (circleState 1073741825 0).y ≤ (circleState 1073741825 0).x ∧
    (circleState 1073741825 0).x ^ 2 + (circleState 1073741825 0).y ^ 2 - 1073741825 ^ 2
      = -2147483649 ∧
    circleState 1073741825 1
      = { x := 1073741823, y := 0, tx := 3, ty := 1, error := 0 } ∧
    (circleState 1073741825 1).x ^ 2 + (circleState 1073741825 1).y ^ 2 - 1073741825 ^ 2
      = -4294967296 := by
  decide

/-- C17, amended: for every integer radius `r` with `-2^30 < r < 2^30`, the range
in which no 32-bit operation of the loop overflows, the loop of `drawCircle`
runs some `k` iterations, and the loop variables at the start of every
iteration and at loop exit (the states after `0, 1, ..., k` executions of the
loop body) satisfy `ty = 2*y + 1`, `tx = 2*(r - 1 - x) + 1` and
`error = x^2 + y^2 - r^2`. -/
theorem circle_decision_variables (cx cy r : Int) (hr1 : -1073741824 < r)
    (hr2 : r < 1073741824) :
    ∃ k : Nat,
      drawCircle cx cy r
        = some ((List.range k).flatMap (fun i => plotIteration cx cy (circleState r i))) ∧
      (∀ i, i < k → (circleState r i).y ≤ (circleState r i).x) ∧
      (circleState r k).x < (circleState r k).y ∧
      ∀ i, i ≤ k →
        (circleState r i).ty = 2 * (circleState r i).y + 1 ∧
        (circleState r i).tx = 2 * (r - 1 - (circleState r i).x) + 1 ∧
        (circleState r i).error
          = (circleState r i).x ^ 2 + (circleState r i).y ^ 2 - r ^ 2 := by
  obtain ⟨k, _, hrun, hbefore, hstop, heqs, _, _⟩ := drawCircle_run cx cy r hr1 hr2
  exact ⟨k, hrun, hbefore, hstop, heqs⟩

/-- C17, amended, at a concrete input: radius 50 about (100, 100). -/
theorem circle_decision_variables_witness :
    ∃ k : Nat,
      drawCircle 100 100 50
        = some ((List.range k).flatMap (fun i => plotIteration 100 100 (circleState 50 i))) ∧
      (∀ i, i < k → (circleState 50 i).y ≤ (circleState 50 i).x) ∧
      (circleState 50 k).x < (circleState 50 k).y ∧
      ∀ i, i ≤ k →
        (circleState 50 i).ty = 2 * (circleState 50 i).y + 1 ∧
        (circleState 50 i).tx = 2 * (50 - 1 - (circleState 50 i).x) + 1 ∧
        (circleState 50 i).error
          = (circleState 50 i).x ^ 2 + (circleState 50 i).y ^ 2 - 50 ^ 2 :=
  circle_decision_variables 100 100 50 (by decide) (by decide)

/-! ## C18: the state `Game::update` returns in -/

theorem swapAndPop_nil (a : Nat) : swapAndPop [] a = [] :=
  swapAndPop_of_not_mem [] a (List.not_mem_nil a)

theorem foldl_swapAndPop_nil (ds : List Nat) : ds.foldl swapAndPop [] = [] := by
  induction ds with
  | nil => rfl
  | cons d t ih => rw [List.foldl_cons, swapAndPop_nil, ih]

theorem update_game_fields (beh : Behaviour) (dt : Rat) (w : World) :
    (Game.update beh dt w).game.isUpdatingActors = false ∧
    (Game.update beh dt w).game.pendingActors = [] ∧
    (Game.update beh dt w).game.isRunning = w.game.isRunning := by
  have hd := foldl_delete (deadActors (beforeReap beh dt w)) (beforeReap beh dt w)
  refine ⟨?_, ?_, ?_⟩
  · exact hd.2.2.1
  · have hp : (beforeReap beh dt w).game.pendingActors = [] := rfl
    have := hd.2.1
    rw [hp, foldl_swapAndPop_nil] at this
    exact this
  · exact hd.2.2.2.1.trans (actorPass_fields beh dt w).2.1

/-- C18: for every world state on entry, whatever the values of
`isUpdatingActors` and of the pending queue, and every `dt`, `Game::update`
returns with `isUpdatingActors` false and the pending queue empty; hence an
`addActor` call made after it appends to the live collection and leaves the
pending queue empty. -/
theorem update_returns_with_flag_down_and_queue_empty (beh : Behaviour) (dt : Rat) (w : World)
    (a : Nat) :
    (Game.update beh dt w).game.isUpdatingActors = false ∧
    (Game.update beh dt w).game.pendingActors = [] ∧
    ((Game.update beh dt w).game.addActor a).actors = (Game.update beh dt w).game.actors ++ [a] ∧
    ((Game.update beh dt w).game.addActor a).pendingActors = [] := by
  have h := update_game_fields beh dt w
  refine ⟨h.1, h.2.1, ?_, ?_⟩
  · simp [Game.addActor, h.1]
  · simp [Game.addActor, h.1, h.2.1]

/-! ## C13: `Game::initialize` -/

/-- C13: for every pair of outcomes of the two sub-initialisations,
`Game::initialize` returns success if and only if both `window.initialize` and
`renderer.initialize` succeeded, and failure if either failed; it calls both,
the renderer initialisation also when the window initialisation failed, and it
closes nothing. -/
theorem initialize_succeeds_iff_both (windowInit rendererInit : Bool) :
    (( Game.initialize windowInit rendererInit).1 = true
      ↔ windowInit = true ∧ rendererInit = true) ∧
    (windowInit = false ∨ rendererInit = false →
      ( Game.initialize windowInit rendererInit).1 = false) ∧
    ( Game.initialize windowInit rendererInit).2
      = [PlatformCall.windowInitialize, PlatformCall.rendererInitialize] ∧
    PlatformCall.rendererInitialize ∈ ( Game.initialize false rendererInit).2 ∧
    PlatformCall.rendererClose ∉ ( Game.initialize windowInit rendererInit).2 ∧
    PlatformCall.windowClose ∉ ( Game.initialize windowInit rendererInit).2 := by
  cases windowInit <;> cases rendererInit <;> decide

/-! ## C15: `Game::loop` -/

theorem unloadLoop_run (fuel : Nat) (w : World) (h : w.game.actors.length ≤ fuel) :
    ∃ w1 ds, unloadLoop fuel w = some w1 ∧ w1.game.actors = [] ∧
      w1.destroyed = w.destroyed ++ ds ∧ ds.Perm w.game.actors := by
  induction fuel generalizing w with
  | zero =>
    have hnil : w.game.actors = [] := List.length_eq_zero.1 (Nat.le_zero.1 h)
    exact ⟨w, [], by simp [unloadLoop, hnil], hnil, by simp, by rw [hnil]⟩
  | succ fuel ih =>
    cases hlast : w.game.actors.getLast? with
    | none =>
      have hnil : w.game.actors = [] := List.getLast?_eq_none_iff.1 hlast
      exact ⟨w, [], by simp [unloadLoop, hlast], hnil, by simp, by rw [hnil]⟩
    | some a =>
      have hmem : a ∈ w.game.actors := List.mem_of_getLast?_eq_some hlast
      have hact : (Actor.delete w a).game.actors = swapAndPop w.game.actors a := rfl
      have hlen : (Actor.delete w a).game.actors.length ≤ fuel := by
        rw [hact, length_swapAndPop_of_mem _ a hmem]
        omega
      obtain ⟨w1, ds, hrun, hempty, hlog, hperm⟩ := ih (Actor.delete w a) hlen
      refine ⟨w1, a :: ds, ?_, hempty, ?_, ?_⟩
      · simp [unloadLoop, hlast, hrun]
      · rw [hlog]
        simp [Actor.delete]
      · rw [hact] at hperm
        have h1 : (a :: ds).Perm (a :: swapAndPop w.game.actors a) := List.Perm.cons a hperm
        have h2 : (a :: swapAndPop w.game.actors a).Perm (swapAndPop w.game.actors a ++ [a]) :=
          (List.perm_append_singleton a _).symm
        exact (h1.trans h2).trans (swapAndPop_concat_perm _ a hmem)

/-- C14, as stated, fails: in `doubledWorld` actor 1 is listed twice in the live
collection, and `Game::unload` applies `delete` to it twice. -/
theorem unload_deletes_repeated_actor_twice :
    doubledWorld.game.actors = [1, 1] ∧
    (( Game.unload doubledWorld []).map (fun r => deletesDuring doubledWorld r.1)) = some [1, 1] := by
  exact ⟨rfl, rfl⟩

/-- C14, amended: for every world state, `Game::unload` terminates, applies
`delete` once per entry of the live collection (the deleted actors are the
entries of the live collection in some order, so every actor that occurs
exactly once in it is destroyed exactly once and no other actor is destroyed),
leaves the live collection empty, and clears the resource cache afterwards. -/
theorem unload_deletes_every_live_entry (w : World) (textures : List (String × Nat)) :
    ∃ w1, Game.unload w textures = some (w1, []) ∧
      w1.game.actors = [] ∧
      (deletesDuring w w1).Perm w.game.actors ∧
      (∀ a, w.game.actors.count a = 1 → (deletesDuring w w1).count a = 1) ∧
      (∀ a, a ∉ w.game.actors → a ∉ deletesDuring w w1) := by
  obtain ⟨w1, ds, hrun, hempty, hlog, hperm⟩ :=
    unloadLoop_run w.game.actors.length w (Nat.le_refl _)
  have hdel : deletesDuring w w1 = ds := by
    unfold deletesDuring
    rw [hlog]
    simp
  refine ⟨w1, ?_, hempty, ?_, ?_, ?_⟩
  · simp [Game.unload, hrun, Assets.clear]
  · rw [hdel]
    exact hperm
  · intro a ha
    rw [hdel, hperm.count_eq a]
    exact ha
  · intro a ha hmem
    rw [hdel] at hmem
    exact ha (hperm.mem_iff.1 hmem)

/-! ## C12: circle components and the drawable set -/

theorem matchedPairs_length (events : List CircleEvent) (alive circles : List Nat)
    (hmatched : matchedPairs alive events = true)
    (halive : ∀ b, alive.count b ≤ circles.count b) :
    (runCircleEvents circles events).length + alive.length = circles.length ∧
    events.length = 2 * constructions events + alive.length := by
  induction events generalizing alive circles with
  | nil =>
    have hnil : alive = [] := by simpa [matchedPairs] using hmatched
    simp [runCircleEvents, constructions, hnil]
  | cons e rest ih =>
    cases e with
    | construct c =>
      have hm : matchedPairs (c :: alive) rest = true := by simpa [matchedPairs] using hmatched
      have hcount : ∀ b, (c :: alive).count b ≤ (circles ++ [c]).count b := by
        intro b
        have := halive b
        simp only [List.count_cons, List.count_append, List.count_nil]
        omega
      have := ih (c :: alive) (circles ++ [c]) hm hcount
      simp only [List.length_cons, List.length_append, List.length_nil] at this
      simp only [runCircleEvents, DrawCircleComponent.construct, List.foldl_cons, List.foldl_nil,
        Renderer.run, constructions, List.length_cons]
      omega
    | destroy c =>
      have hm : alive.contains c = true ∧ matchedPairs (alive.erase c) rest = true := by
        simpa [matchedPairs] using hmatched
      have hc : c ∈ alive := by simpa using hm.1
      have hcc : c ∈ circles := by
        have h1 : 0 < alive.count c := List.count_pos_iff.2 hc
        have h2 := halive c
        exact List.count_pos_iff.1 (by omega)
      have hcount : ∀ b, (alive.erase c).count b ≤ (circles.erase c).count b := by
        intro b
        have := halive b
        rw [List.count_erase, List.count_erase]
        omega
      have := ih (alive.erase c) (circles.erase c) hm.2 hcount
      rw [List.length_erase_of_mem hc, List.length_erase_of_mem hcc] at this
      have hpos1 : 0 < alive.length := List.length_pos_of_mem hc
      have hpos2 : 0 < circles.length := List.length_pos_of_mem hcc
      simp only [runCircleEvents, DrawCircleComponent.destroy, List.foldl_cons, List.foldl_nil,
        Renderer.run, constructions, List.length_cons]
      omega

/-- C12: with the drawable set of the renderer as an explicit collection,
constructing a `DrawCircleComponent` issues exactly one `addCircle` call, with
the new component as argument, and destroying it issues exactly one
`removeCircle` call with that same component; the first adds one entry to the
set and the second takes one entry away from a set that holds the component;
hence for every `N`, events that form `N` matched construct/destroy pairs leave
the size of the drawable set equal to its size before. -/
theorem circle_pairs_keep_drawable_set_size (N : Nat) (events : List CircleEvent)
    (circles : List Nat) (hmatched : matchedPairs [] events = true)
    (hN : constructions events = N) :
    (∀ this, DrawCircleComponent.construct this = [RendererCall.addCircle this]) ∧
    (∀ this, DrawCircleComponent.destroy this = [RendererCall.removeCircle this]) ∧
    (∀ this (set : List Nat),
      (DrawCircleComponent.construct this).foldl Renderer.run set = set ++ [this]) ∧
    (∀ this (set : List Nat), this ∈ set →
      ((DrawCircleComponent.destroy this).foldl Renderer.run set).length + 1 = set.length ∧
      ((DrawCircleComponent.destroy this).foldl Renderer.run set).count this + 1
        = set.count this) ∧
    events.length = 2 * N ∧
    (runCircleEvents circles events).length = circles.length := by
  have h := matchedPairs_length events [] circles hmatched (fun b => by simp)
  refine ⟨fun _ => rfl, fun _ => rfl, fun _ _ => rfl, ?_, ?_, ?_⟩
  · intro this set hmem
    have hpos : 0 < set.length := List.length_pos_of_mem hmem
    have hcpos : 0 < set.count this := List.count_pos_iff.2 hmem
    simp only [DrawCircleComponent.destroy, List.foldl_cons, List.foldl_nil, Renderer.run]
    rw [List.length_erase_of_mem hmem, List.count_erase_self]
    omega
  · rw [← hN]
    simpa using h.2
  · simpa using h.1

/-- C12 at a concrete input: three components with interleaved lifetimes leave a
drawable set of one entry with one entry. -/
theorem circle_pairs_keep_drawable_set_size_witness :
    sampleCircleEvents.length = 2 * 3 ∧
    (runCircleEvents [7] sampleCircleEvents).length = 1 :=
  ⟨(circle_pairs_keep_drawable_set_size 3 sampleCircleEvents [7] (by decide) (by decide)).2.2.2.2.1,
   (circle_pairs_keep_drawable_set_size 3 sampleCircleEvents [7] (by decide) (by decide)).2.2.2.2.2⟩

end SimpleEngine
